import Mathlib

/-!
Verification development for the multi-trajectory BM25 retrieval / answer
consensus pipeline (`src/BM25S_retrieval.py`, `src/multi_BM25_retrieval.py`,
`src/llm_pipeline.py`, `src/question_reformulating.py`, `src/predict_full.py`,
`src/predict2.py`).

The Python code is shallowly embedded: pure functions become Lean functions,
Python `float` scores are modelled as `ℚ` (exact ordered arithmetic; the code
only compares, clamps and maximises scores, never does lossy float
arithmetic), Python string methods are modelled character-by-character over
the ASCII fragment the pipeline manipulates, dictionaries become
insertion-ordered association lists (matching CPython's ordered dicts), and
code that can raise returns `Except`/`Option`.  External collaborators (the
bm25s engine, the Mistral chat endpoints, `json.loads`) are parameters of the
embedded functions: every theorem quantifies over their behaviour or fixes a
concrete stub.
-/

namespace Spec2Proof

/-! ## Python string primitives

Character-level models of the `str` methods used by the pipeline:
`str.strip()`, `str.lower()`, `str.startswith`, `str.splitlines()`,
`in`, `str.split(sep, 1)`, `str.find`, `str.rfind` and slicing.
`lower` is modelled on ASCII letters, and `strip`'s whitespace set is the
ASCII whitespace plus the C1 controls that Python treats as space; the
pipeline's fixed sentinels and prompts are ASCII, and every theorem uses the
same model on both sides. -/

/-- Python `str.lower` on one character (ASCII fragment). -/
def pyLowerChar (c : Char) : Char :=
  if 'A' ≤ c ∧ c ≤ 'Z' then Char.ofNat (c.toNat + 32) else c

/-- Python `str.lower` (ASCII fragment). -/
def pyLower (s : String) : String :=
  String.mk (s.toList.map pyLowerChar)

/-- Python whitespace (the characters `str.strip()` removes), ASCII fragment:
space, tab, newline, carriage return, vertical tab, form feed. -/
def isPySpace (c : Char) : Bool :=
  c = ' ' || c = '\t' || c = '\n' || c = '\x0d' || c = '\x0b' || c = '\x0c'

/-- Drop trailing Python whitespace from a character list. -/
def dropTrailing (l : List Char) : List Char :=
  (l.reverse.dropWhile isPySpace).reverse

/-- Python `str.strip()` on a character list. -/
def stripChars (l : List Char) : List Char :=
  dropTrailing (l.dropWhile isPySpace)

/-- Python `str.strip()`. -/
def pyStrip (s : String) : String :=
  String.mk (stripChars s.toList)

/-- `charsLePrefix p l` holds when `p` is an initial segment of `l`
(Python `str.startswith` at character level). -/
def charsLeAt : List Char → List Char → Bool
  | [], _ => true
  | _ :: _, [] => false
  | a :: as, b :: bs => a = b && charsLeAt as bs

/-- Python `s.startswith(p)`. -/
def pyStartswith (s p : String) : Bool :=
  charsLeAt p.toList s.toList

/-! ## Claim C6: answer post-processing (`AnswerGenerator._normalize_yes_no`,
`src/llm_pipeline.py` lines 61-68). -/

/-- `AnswerGenerator._normalize_yes_no` (`src/llm_pipeline.py` 61-68):
```
ans = answer.strip().lower()
if ans.startswith("yes"): return "yes"
if ans.startswith("no"): return "no"
return answer.strip()
``` -/
def normalize_yes_no (answer : String) : String :=
  let ans := pyLower (pyStrip answer)
  if pyStartswith ans "yes" then "yes"
  else if pyStartswith ans "no" then "no"
  else pyStrip answer

/-- The fixed fallback sentinel the generator is instructed to output
(`src/llm_pipeline.py` line 47). -/
def fallbackSentinel : String := "I cannot answer from the given context."

theorem charsLeAt_no_not_yes (l : List Char) (h : charsLeAt ['n', 'o'] l = true) :
    charsLeAt ['y', 'e', 's'] l = false := by
  cases l with
  | nil => simp [charsLeAt] at h
  | cons a as =>
    simp only [charsLeAt, Bool.and_eq_true, decide_eq_true_eq] at h
    obtain ⟨h1, _⟩ := h
    subst h1
    simp [charsLeAt]

/-- C6: post-processing of a generated answer trims whitespace; if the
trimmed, lowercased text starts with `"yes"` the result is exactly `"yes"`,
if it starts with `"no"` the result is exactly `"no"`, and otherwise the
result is the trimmed text verbatim — in particular the fallback sentinel is
returned unchanged. -/
theorem C6_normalize_yes_no :
    (∀ answer : String,
      (pyStartswith (pyLower (pyStrip answer)) "yes" = true →
        normalize_yes_no answer = "yes") ∧
      (pyStartswith (pyLower (pyStrip answer)) "no" = true →
        normalize_yes_no answer = "no") ∧
      (pyStartswith (pyLower (pyStrip answer)) "yes" = false →
        pyStartswith (pyLower (pyStrip answer)) "no" = false →
        normalize_yes_no answer = pyStrip answer)) ∧
    normalize_yes_no fallbackSentinel = fallbackSentinel := by
  constructor
  · intro answer
    refine ⟨fun hy => ?_, fun hn => ?_, fun hy hn => ?_⟩
    · simp [normalize_yes_no, hy]
    · have hy : pyStartswith (pyLower (pyStrip answer)) "yes" = false := by
        have := charsLeAt_no_not_yes (pyLower (pyStrip answer)).toList
        simpa [pyStartswith] using this (by simpa [pyStartswith] using hn)
      simp [normalize_yes_no, hy, hn]
    · simp [normalize_yes_no, hy, hn]
  · decide

/-- Witness for C6: a concrete answer starting (after trimming and
lowercasing) with "Yes" is normalized to exactly `"yes"`. -/
theorem C6_normalize_yes_no_witness :
    pyStartswith (pyLower (pyStrip "  Yes, it is stated.  ")) "yes" = true ∧
    normalize_yes_no "  Yes, it is stated.  " = "yes" :=
  ⟨by decide, (C6_normalize_yes_no.1 "  Yes, it is stated.  ").1 (by decide)⟩

/-! ## More string primitives: `str.splitlines`, `in`, `str.split(c, 1)` -/

/-- The line-break characters of Python `str.splitlines` (the BMP set:
LF, CR, VT, FF, FS, GS, RS, NEL, LINE SEPARATOR, PARAGRAPH SEPARATOR). -/
def isLineBreak (c : Char) : Bool :=
  c = '\n' || c = '\x0d' || c = '\x0b' || c = '\x0c' || c = '\x1c' ||
  c = '\x1d' || c = '\x1e' || c = '\x85' || c = '\u2028' || c = '\u2029'

/-- Worker for `pySplitlines`; `acc` holds the current line reversed.
A CR immediately followed by LF counts as a single break. -/
def splitlinesAux : List Char → List Char → List String
  | [], acc => if acc.isEmpty then [] else [String.mk acc.reverse]
  | '\x0d' :: '\n' :: rest, acc => String.mk acc.reverse :: splitlinesAux rest []
  | c :: rest, acc =>
    if isLineBreak c then String.mk acc.reverse :: splitlinesAux rest []
    else splitlinesAux rest (c :: acc)

/-- Python `str.splitlines()`. -/
def pySplitlines (s : String) : List String := splitlinesAux s.toList []

/-- Python `c in s` at character level. -/
def charsContains : List Char → Char → Bool
  | [], _ => false
  | x :: xs, c => x = c || charsContains xs c

/-- The characters after the first occurrence of `c`
(`s.split(c, 1)[1]` when `c` occurs). -/
def afterFirstChar (c : Char) : List Char → List Char
  | [] => []
  | x :: xs => if x = c then xs else afterFirstChar c xs

/-! ## Claim C7: entity-focused variant generation
(`QuestionRewriter.entity_focused`, `src/question_reformulating.py` 91-130).
The completion collaborator is external; the embedding takes its response
text `resp` as input. -/

/-- The parsing loop of `QuestionRewriter.entity_focused`
(`src/question_reformulating.py` 122-130):
```
queries = []
for ln in resp.splitlines():
    ln = ln.strip()
    if ":" not in ln: continue
    _entity, q = ln.split(":", 1)
    queries.append(q.strip())
return queries[:max_entities]
``` -/
def entity_focused (resp : String) (max_entities : Nat) : List String :=
  let queries := (pySplitlines resp).foldl
    (fun qs ln =>
      let lnS := pyStrip ln
      if charsContains lnS.toList ':' = false then qs
      else qs ++ [pyStrip (String.mk (afterFirstChar ':' lnS.toList))])
    []
  queries.take max_entities

/-- The claim's description of one raw response line's contribution: a line
containing no colon is discarded, otherwise only the text after the line's
first colon is kept, stripped. -/
def entityVariantOfLine (ln : String) : Option String :=
  if charsContains ln.toList ':' then
    some (pyStrip (String.mk (afterFirstChar ':' ln.toList)))
  else none

theorem charsContains_append (a b : List Char) (c : Char) :
    charsContains (a ++ b) c = (charsContains a c || charsContains b c) := by
  induction a with
  | nil => simp [charsContains]
  | cons x xs ih => simp [charsContains, ih, Bool.or_assoc]

theorem charsContains_reverse (l : List Char) (c : Char) :
    charsContains l.reverse c = charsContains l c := by
  induction l with
  | nil => rfl
  | cons x xs ih =>
    simp [charsContains, List.reverse_cons, charsContains_append, ih, Bool.or_comm]

theorem charsContains_dropWhile (p : Char → Bool) (c : Char) (hp : p c = false)
    (l : List Char) : charsContains (l.dropWhile p) c = charsContains l c := by
  induction l with
  | nil => rfl
  | cons x xs ih =>
    by_cases hx : p x = true
    · have hne : (x = c) = False := by
        refine eq_false fun h => ?_
        rw [h, hp] at hx
        exact Bool.false_ne_true hx
      simp [List.dropWhile_cons, hx, ih, charsContains, hne]
    · simp [List.dropWhile_cons, hx, charsContains]

theorem charsContains_all_false (p : Char → Bool) (c : Char) (hp : p c = false)
    (w : List Char) (hw : ∀ x ∈ w, p x = true) : charsContains w c = false := by
  induction w with
  | nil => rfl
  | cons x xs ih =>
    have hne : (x = c) = False := by
      refine eq_false fun h => ?_
      have := hw x (List.mem_cons_self x xs)
      rw [h, hp] at this
      exact Bool.false_ne_true this
    simp only [charsContains, hne]
    simp only [decide_False, Bool.false_or]
    exact ih fun y hy => hw y (List.mem_cons_of_mem x hy)

theorem afterFirstChar_dropWhile (p : Char → Bool) (c : Char) (hp : p c = false)
    (l : List Char) : afterFirstChar c (l.dropWhile p) = afterFirstChar c l := by
  induction l with
  | nil => rfl
  | cons x xs ih =>
    by_cases hx : p x = true
    · have hne : x ≠ c := fun h => by
        rw [h, hp] at hx
        exact Bool.false_ne_true hx
      simp [List.dropWhile_cons, hx, ih, afterFirstChar, hne]
    · simp [List.dropWhile_cons, hx]

theorem afterFirstChar_append (c : Char) (a b : List Char)
    (h : charsContains a c = true) :
    afterFirstChar c (a ++ b) = afterFirstChar c a ++ b := by
  induction a with
  | nil => simp [charsContains] at h
  | cons x xs ih =>
    by_cases hx : x = c
    · simp [afterFirstChar, hx]
    · simp only [charsContains, decide_eq_true_eq, Bool.or_eq_true] at h
      have h' : charsContains xs c = true := h.resolve_left hx
      simp [afterFirstChar, hx, ih h']

theorem dropWhile_all_append (p : Char → Bool) (u v : List Char)
    (h : ∀ x ∈ u, p x = true) : (u ++ v).dropWhile p = v.dropWhile p := by
  induction u with
  | nil => rfl
  | cons x xs ih =>
    have hx := h x (List.mem_cons_self x xs)
    simp only [List.cons_append, List.dropWhile_cons, hx, if_true]
    exact ih fun y hy => h y (List.mem_cons_of_mem x hy)

theorem dropWhile_all_nil (p : Char → Bool) (u : List Char)
    (h : ∀ x ∈ u, p x = true) : u.dropWhile p = [] := by
  have := dropWhile_all_append p u [] h
  simpa using this

theorem dropWhile_append_of_not_all (p : Char → Bool) (u v : List Char)
    (h : ¬ ∀ x ∈ u, p x = true) :
    (u ++ v).dropWhile p = u.dropWhile p ++ v := by
  induction u with
  | nil => exact absurd (by intro x hx; exact absurd hx (List.not_mem_nil x)) h
  | cons x xs ih =>
    by_cases hx : p x = true
    · have hxs : ¬ ∀ y ∈ xs, p y = true := fun hall =>
        h fun y hy => by
          rcases List.mem_cons.mp hy with rfl | hy'
          · exact hx
          · exact hall y hy'
      simp [List.dropWhile_cons, hx, ih hxs]
    · simp [List.dropWhile_cons, hx]

theorem dropTrailing_append_all (m w : List Char)
    (h : ∀ x ∈ w, isPySpace x = true) :
    dropTrailing (m ++ w) = dropTrailing m := by
  unfold dropTrailing
  rw [List.reverse_append,
    dropWhile_all_append isPySpace w.reverse m.reverse
      (fun x hx => h x (List.mem_reverse.mp hx))]

theorem stripChars_append_all (a w : List Char)
    (h : ∀ x ∈ w, isPySpace x = true) :
    stripChars (a ++ w) = stripChars a := by
  by_cases hall : ∀ x ∈ a, isPySpace x = true
  · have h1 : (a ++ w).dropWhile isPySpace = [] :=
      dropWhile_all_nil _ _ fun x hx => by
        rcases List.mem_append.mp hx with hx' | hx'
        · exact hall x hx'
        · exact h x hx'
    have h2 : a.dropWhile isPySpace = [] := dropWhile_all_nil _ _ hall
    simp [stripChars, h1, h2]
  · unfold stripChars
    rw [dropWhile_append_of_not_all isPySpace a w hall,
      dropTrailing_append_all _ w h]

theorem mem_takeWhile_pred (p : Char → Bool) :
    ∀ (l : List Char), ∀ x ∈ l.takeWhile p, p x = true := by
  intro l
  induction l with
  | nil => intro x hx; exact absurd hx (List.not_mem_nil x)
  | cons y ys ih =>
    intro x hx
    by_cases hy : p y = true
    · rw [List.takeWhile_cons, if_pos hy] at hx
      rcases List.mem_cons.mp hx with rfl | hx'
      · exact hy
      · exact ih x hx'
    · rw [List.takeWhile_cons, if_neg hy] at hx
      exact absurd hx (List.not_mem_nil x)

/-- Splitting off a line's trailing whitespace:
`dropTrailing m ++ (trailing whitespace of m) = m`. -/
theorem dropTrailing_append_takeWhile (m : List Char) :
    dropTrailing m ++ (m.reverse.takeWhile isPySpace).reverse = m := by
  unfold dropTrailing
  have := List.takeWhile_append_dropWhile (p := isPySpace) (l := m.reverse)
  calc (m.reverse.dropWhile isPySpace).reverse ++
        (m.reverse.takeWhile isPySpace).reverse
      = (m.reverse.takeWhile isPySpace ++ m.reverse.dropWhile isPySpace).reverse := by
        rw [List.reverse_append]
    _ = m := by rw [this, List.reverse_reverse]

/-- Stripping a line first does not change the (stripped) text after its
first colon: the source strips each line before locating the colon, the
claim speaks of the raw line. -/
theorem strip_afterFirst_strip (l : List Char)
    (h : charsContains l ':' = true) :
    stripChars (afterFirstChar ':' (stripChars l)) =
      stripChars (afterFirstChar ':' l) := by
  have hp : isPySpace ':' = false := by decide
  set m := l.dropWhile isPySpace with hm
  have hcm : charsContains m ':' = true := by
    rw [hm, charsContains_dropWhile isPySpace ':' hp l]; exact h
  have hsplit := dropTrailing_append_takeWhile m
  set dt := dropTrailing m with hdt
  set tw := (m.reverse.takeWhile isPySpace).reverse with htw
  have htw_ws : ∀ x ∈ tw, isPySpace x = true := fun x hx =>
    mem_takeWhile_pred isPySpace m.reverse x (List.mem_reverse.mp (htw ▸ hx))
  have hcdt : charsContains dt ':' = true := by
    have : charsContains (dt ++ tw) ':' = true := by rw [hsplit]; exact hcm
    rw [charsContains_append] at this
    rcases Bool.or_eq_true_iff.mp this with h' | h'
    · exact h'
    · rw [charsContains_all_false isPySpace ':' hp tw htw_ws] at h'
      exact absurd h' Bool.false_ne_true
  have hL : stripChars l = dt := by rw [stripChars, hdt, hm]
  have hR : afterFirstChar ':' l = afterFirstChar ':' dt ++ tw := by
    calc afterFirstChar ':' l = afterFirstChar ':' m := by
          rw [hm, afterFirstChar_dropWhile isPySpace ':' hp l]
      _ = afterFirstChar ':' (dt ++ tw) := by rw [hsplit]
      _ = afterFirstChar ':' dt ++ tw := afterFirstChar_append ':' dt tw hcdt
  rw [hL, hR, stripChars_append_all _ tw htw_ws]

theorem charsContains_strip (l : List Char) :
    charsContains (stripChars l) ':' = charsContains l ':' := by
  have hp : isPySpace ':' = false := by decide
  unfold stripChars dropTrailing
  rw [charsContains_reverse, charsContains_dropWhile isPySpace ':' hp,
    charsContains_reverse, charsContains_dropWhile isPySpace ':' hp]

theorem foldl_append_eq_filterMap (f : String → Option String)
    (lines : List String) : ∀ acc : List String,
    lines.foldl
      (fun qs ln => match f ln with | none => qs | some v => qs ++ [v]) acc
      = acc ++ lines.filterMap f := by
  induction lines with
  | nil => intro acc; simp
  | cons ln rest ih =>
    intro acc
    cases hf : f ln with
    | none => simp [List.foldl_cons, hf, ih, List.filterMap_cons]
    | some v => simp [List.foldl_cons, hf, ih, List.filterMap_cons]

/-- C7: the entity-focused variant parser keeps, in order, exactly the
stripped after-first-colon text of each response line that contains a colon,
discards colon-free lines, and returns at most `max_entities` variants. -/
theorem C7_entity_focused (resp : String) (max_entities : Nat) :
    entity_focused resp max_entities =
      ((pySplitlines resp).filterMap entityVariantOfLine).take max_entities ∧
    (entity_focused resp max_entities).length ≤ max_entities := by
  have hstep : ∀ (qs : List String) (ln : String),
      (let lnS := pyStrip ln
        if charsContains lnS.toList ':' = false then qs
        else qs ++ [pyStrip (String.mk (afterFirstChar ':' lnS.toList))])
      = match entityVariantOfLine ln with
        | none => qs
        | some v => qs ++ [v] := by
    intro qs ln
    show (if charsContains (stripChars ln.data) ':' = false then qs
          else qs ++ [String.mk (stripChars (afterFirstChar ':' (stripChars ln.data)))])
        = match (if charsContains ln.data ':' then
              some (String.mk (stripChars (afterFirstChar ':' ln.data)))
            else none) with
          | none => qs
          | some v => qs ++ [v]
    by_cases hc : charsContains ln.data ':' = true
    · have hcs : charsContains (stripChars ln.data) ':' = true := by
        rw [charsContains_strip]; exact hc
      rw [strip_afterFirst_strip ln.data hc]
      simp [hcs, hc]
    · have hc' : charsContains ln.data ':' = false := by
        cases hb : charsContains ln.data ':' with
        | false => rfl
        | true => exact absurd hb hc
      have hcs : charsContains (stripChars ln.data) ':' = false := by
        rw [charsContains_strip]; exact hc'
      simp [hcs, hc']
  constructor
  · unfold entity_focused
    have : ((pySplitlines resp).foldl
        (fun qs ln =>
          let lnS := pyStrip ln
          if charsContains lnS.toList ':' = false then qs
          else qs ++ [pyStrip (String.mk (afterFirstChar ':' lnS.toList))]) [])
        = (pySplitlines resp).filterMap entityVariantOfLine := by
      have hfe : (fun qs ln =>
          let lnS := pyStrip ln
          if charsContains lnS.toList ':' = false then qs
          else qs ++ [pyStrip (String.mk (afterFirstChar ':' lnS.toList))])
          = (fun qs ln => match entityVariantOfLine ln with
            | none => qs
            | some v => qs ++ [v]) := by
        funext qs ln
        exact hstep qs ln
      rw [hfe, foldl_append_eq_filterMap entityVariantOfLine (pySplitlines resp) []]
      simp
    simp only [this]
  · exact List.length_take_le _ _

/-! ## Claims C2 and C3: the answer consensus vote
(`run_full_dev`, `src/predict_full.py` lines 100-141; `run_simple_pipeline`
in `src/predict2.py` lines 94-141 carries the identical decision logic).
Candidate answers and their confidence scores are inputs: the upstream
generation/scoring collaborators are external.  The `freq` dict built at
`src/predict_full.py` 110-113 is never read by the decision and is omitted. -/

/-- `norm_ans` (`src/predict_full.py` 100-101): trim then lowercase. -/
def norm_ans (ans : String) : String := pyLower (pyStrip ans)

/-- The normalized fallback key compared against at
`src/predict_full.py` 104 and 127. -/
def fallbackKey : String := "i cannot answer from the given context."

/-- `is_non_empty` (`src/predict_full.py` 103-104): normalized text is
truthy and is not the fallback key. -/
def is_non_empty (ans : String) : Bool :=
  decide (norm_ans ans ≠ "") && decide (norm_ans ans ≠ fallbackKey)

/-- Python `max(x :: xs, key=key)`: scan left to right, replacing the current
best only on a strictly greater key, so the first element attaining the
maximal key wins. -/
def pyMax {α β : Type} [LinearOrder β] (key : α → β) (x : α) (xs : List α) : α :=
  xs.foldl (fun best y => if key best < key y then y else best) x

theorem pyMax_mem {α β : Type} [LinearOrder β] (key : α → β) (x : α)
    (xs : List α) : pyMax key x xs ∈ x :: xs := by
  induction xs generalizing x with
  | nil => simp [pyMax]
  | cons y ys ih =>
    have h := ih (if key x < key y then y else x)
    simp only [pyMax, List.foldl_cons] at h ⊢
    rcases List.mem_cons.mp h with h' | h'
    · rw [h']
      split
      · exact List.mem_cons_of_mem x (List.mem_cons_self y ys)
      · exact List.mem_cons_self x (y :: ys)
    · exact List.mem_cons_of_mem x (List.mem_cons_of_mem y h')

theorem pyMax_le {α β : Type} [LinearOrder β] (key : α → β) (x : α)
    (xs : List α) : ∀ z ∈ x :: xs, key z ≤ key (pyMax key x xs) := by
  induction xs generalizing x with
  | nil =>
    intro z hz
    rcases List.mem_cons.mp hz with rfl | hz'
    · exact le_refl _
    · exact absurd hz' (List.not_mem_nil z)
  | cons y ys ih =>
    intro z hz
    set x' := if key x < key y then y else x with hx'
    have hxx : key x ≤ key x' := by
      rw [hx']; split
      · exact le_of_lt (by assumption)
      · exact le_refl _
    have hyx : key y ≤ key x' := by
      rw [hx']; split
      · exact le_refl _
      · exact le_of_not_lt (by assumption)
    have hrec : ∀ w ∈ x' :: ys, key w ≤ key (pyMax key x' ys) := ih x'
    have hres : pyMax key x (y :: ys) = pyMax key x' ys := by
      simp only [pyMax, List.foldl_cons]
    rw [hres]
    rcases List.mem_cons.mp hz with rfl | hz'
    · exact le_trans hxx (hrec x' (List.mem_cons_self x' ys))
    · rcases List.mem_cons.mp hz' with rfl | hz''
      · exact le_trans hyx (hrec x' (List.mem_cons_self x' ys))
      · exact hrec z (List.mem_cons_of_mem x' hz'')

/-- One `groups.setdefault(key, []).append(i)` step on the insertion-ordered
dict of index groups (`src/predict_full.py` 119-121). -/
def addToGroups : List (String × List Nat) → String → Nat → List (String × List Nat)
  | [], k, i => [(k, [i])]
  | (k', js) :: rest, k, i =>
    if k' = k then (k', js ++ [i]) :: rest
    else (k', js) :: addToGroups rest k i

/-- The grouping loop of `best_by_frequency` (`src/predict_full.py`
118-121): group the pooled candidate indices by normalized answer text. -/
def buildGroups (cands : List String) (indices : List Nat) :
    List (String × List Nat) :=
  indices.foldl (fun g i => addToGroups g (norm_ans (cands.getD i "")) i) []

/-- `answer_scores[i] if i < len(answer_scores) else 0.0`
(`src/predict_full.py` 126 and 132). -/
def confOf (scores : List ℚ) (i : Nat) : ℚ :=
  if i < scores.length then scores.getD i 0 else 0

/-- `max(confOf i for i in idxs)` over a group's members; Python's `max`
raises on an empty sequence, but every group is nonempty, so the `[]`
branch is unreachable. -/
def group_conf (scores : List ℚ) (idxs : List Nat) : ℚ :=
  match idxs with
  | [] => 0
  | i :: rest => rest.foldl (fun m j => max m (confOf scores j)) (confOf scores i)

/-- The tuple `(fallback_penalty, count, conf)` compared lexicographically,
as Python compares tuples. -/
abbrev GroupKey := Int ×ₗ (Nat ×ₗ ℚ)

/-- `group_key` (`src/predict_full.py` 123-128). -/
def group_key (scores : List ℚ) (item : String × List Nat) : GroupKey :=
  let count : Nat := item.2.length
  let conf : ℚ := if scores = [] then 0 else group_conf scores item.2
  let fallback_penalty : Int :=
    if item.1 ≠ "" ∧ item.1 ≠ fallbackKey then 0 else -1
  toLex (fallback_penalty, toLex (count, conf))

/-- `best_by_frequency` (`src/predict_full.py` 115-133): returns `-1` for an
empty index list; otherwise groups the indices, takes the group with the
lexicographically greatest `(fallback_penalty, count, conf)` tuple
(Python `max` over `groups.items()`), and inside that group returns the
index with the highest confidence when a confidence vector is present, else
the group's first index.  The two inner `[]` branches are unreachable
(grouping a nonempty list yields nonempty groups). -/
def best_by_frequency (cands : List String) (scores : List ℚ)
    (indices : List Nat) : Int :=
  match indices with
  | [] => -1
  | _ :: _ =>
    match buildGroups cands indices with
    | [] => -1
    | g :: gs =>
      let best := pyMax (group_key scores) g gs
      match best.2 with
      | [] => -1
      | i :: rest =>
        if scores ≠ [] then ((pyMax (confOf scores) i rest : Nat) : Int)
        else (i : Int)

/-- The index pool (`src/predict_full.py` 106-107 and 135): all candidate
indices whose answer is non-empty and non-fallback, or every index when that
subset is empty. -/
def consensus_pool (cands : List String) : List Nat :=
  let candidates_idx := List.range cands.length
  let non_empty_idxs :=
    candidates_idx.filter (fun i => is_non_empty (cands.getD i ""))
  if non_empty_idxs ≠ [] then non_empty_idxs else candidates_idx

/-- `best_idx` for one question (`src/predict_full.py` 135-136). -/
def consensus_best_idx (cands : List String) (scores : List ℚ) : Int :=
  best_by_frequency cands scores (consensus_pool cands)

/-- The final answer for one question (`src/predict_full.py` 136-141). -/
def consensus_choose (cands : List String) (scores : List ℚ) : String :=
  let best_idx := consensus_best_idx cands scores
  if best_idx = -1 then
    match cands with
    | [] => ""
    | c :: _ => c
  else cands.getD best_idx.toNat ""

theorem addToGroups_ne_nil (g : List (String × List Nat)) (k : String)
    (i : Nat) : addToGroups g k i ≠ [] := by
  match g with
  | [] => simp [addToGroups]
  | (k', js) :: rest =>
    simp only [addToGroups]
    split <;> simp

theorem foldl_addToGroups_ne_nil (cands : List String) (idxs : List Nat) :
    ∀ acc : List (String × List Nat), acc ≠ [] →
    idxs.foldl (fun g i => addToGroups g (norm_ans (cands.getD i "")) i) acc ≠ [] := by
  induction idxs with
  | nil => intro acc h; simpa using h
  | cons i rest ih =>
    intro acc _
    rw [List.foldl_cons]
    exact ih _ (addToGroups_ne_nil acc _ i)

theorem buildGroups_ne_nil (cands : List String) (i : Nat) (rest : List Nat) :
    buildGroups cands (i :: rest) ≠ [] := by
  unfold buildGroups
  rw [List.foldl_cons]
  exact foldl_addToGroups_ne_nil cands rest _ (addToGroups_ne_nil [] _ i)

theorem addToGroups_inv (S : Nat → Prop) (g : List (String × List Nat))
    (k : String) (i : Nat)
    (hg : ∀ p ∈ g, p.2 ≠ [] ∧ ∀ j ∈ p.2, S j) (hi : S i) :
    ∀ p ∈ addToGroups g k i, p.2 ≠ [] ∧ ∀ j ∈ p.2, S j := by
  induction g with
  | nil =>
    intro p hp
    simp only [addToGroups, List.mem_singleton] at hp
    subst hp
    exact ⟨by simp, by intro j hj; simp at hj; subst hj; exact hi⟩
  | cons q qs ih =>
    intro p hp
    obtain ⟨k', js⟩ := q
    simp only [addToGroups] at hp
    by_cases hk : k' = k
    · rw [if_pos hk] at hp
      rcases List.mem_cons.mp hp with rfl | hp'
      · refine ⟨by simp, fun j hj => ?_⟩
        rcases List.mem_append.mp hj with hj' | hj'
        · exact (hg (k', js) (List.mem_cons_self _ _)).2 j hj'
        · simp at hj'; subst hj'; exact hi
      · exact hg p (List.mem_cons_of_mem _ hp')
    · rw [if_neg hk] at hp
      rcases List.mem_cons.mp hp with rfl | hp'
      · exact hg (k', js) (List.mem_cons_self _ _)
      · exact ih (fun r hr => hg r (List.mem_cons_of_mem _ hr)) p hp'

theorem buildGroups_inv (cands : List String) (indices : List Nat) :
    ∀ p ∈ buildGroups cands indices, p.2 ≠ [] ∧ ∀ j ∈ p.2, j ∈ indices := by
  suffices h : ∀ (idxs : List Nat) (S : Nat → Prop)
      (acc : List (String × List Nat)),
      (∀ p ∈ acc, p.2 ≠ [] ∧ ∀ j ∈ p.2, S j) → (∀ i ∈ idxs, S i) →
      ∀ p ∈ idxs.foldl
        (fun g i => addToGroups g (norm_ans (cands.getD i "")) i) acc,
        p.2 ≠ [] ∧ ∀ j ∈ p.2, S j by
    exact h indices (· ∈ indices) []
      (by intro p hp; exact absurd hp (List.not_mem_nil p)) (fun i hi => hi)
  intro idxs
  induction idxs with
  | nil => intro S acc hacc _; simpa using hacc
  | cons i rest ih =>
    intro S acc hacc hS
    rw [List.foldl_cons]
    exact ih S _
      (addToGroups_inv S acc _ i hacc (hS i (List.mem_cons_self i rest)))
      (fun j hj => hS j (List.mem_cons_of_mem i hj))

/-- C2: whenever at least one candidate answer is non-empty and not the
fallback sentinel (after trimming and lowercasing), the consensus never
selects the fallback sentinel as the final answer. -/
theorem C2_consensus_never_falls_back (cands : List String) (scores : List ℚ)
    (h : ∃ c ∈ cands, is_non_empty c = true) :
    norm_ans (consensus_choose cands scores) ≠ fallbackKey := by
  classical
  obtain ⟨c, hc, hne⟩ := h
  obtain ⟨i, hi, hgi⟩ := List.mem_iff_getElem.mp hc
  have hgetD : cands.getD i "" = c := by
    rw [List.getD_eq_getElem?_getD, List.getElem?_eq_getElem hi]
    simpa using hgi
  have hmemfilter : i ∈ (List.range cands.length).filter
      (fun j => is_non_empty (cands.getD j "")) := by
    refine List.mem_filter.mpr ⟨List.mem_range.mpr hi, ?_⟩
    rw [hgetD]; exact hne
  have hfilter_ne : (List.range cands.length).filter
      (fun j => is_non_empty (cands.getD j "")) ≠ [] :=
    fun hnil => absurd (hnil ▸ hmemfilter) (List.not_mem_nil i)
  have hpool : consensus_pool cands = (List.range cands.length).filter
      (fun j => is_non_empty (cands.getD j "")) := by
    unfold consensus_pool
    rw [if_pos hfilter_ne]
  -- every index in the pool points at a non-fallback candidate
  have hpool_good : ∀ j ∈ consensus_pool cands,
      is_non_empty (cands.getD j "") = true := by
    intro j hj
    rw [hpool] at hj
    exact (List.mem_filter.mp hj).2
  have hpool_ne : consensus_pool cands ≠ [] := by
    rw [hpool]; exact hfilter_ne
  -- run the vote
  obtain ⟨i0, rest0, hpooleq⟩ := List.exists_cons_of_ne_nil hpool_ne
  have hgroups_ne : buildGroups cands (consensus_pool cands) ≠ [] := by
    rw [hpooleq]; exact buildGroups_ne_nil cands i0 rest0
  obtain ⟨g, gs, hgroupseq⟩ := List.exists_cons_of_ne_nil hgroups_ne
  set best := pyMax (group_key scores) g gs with hbest
  have hbestmem : best ∈ g :: gs := pyMax_mem _ g gs
  have hinv := buildGroups_inv cands (consensus_pool cands) best
    (hgroupseq ▸ hbestmem)
  obtain ⟨j0, rest2, hbest2⟩ := List.exists_cons_of_ne_nil hinv.1
  -- the chosen index is a member of the winning group, hence of the pool
  set chosen : Nat := if scores ≠ [] then pyMax (confOf scores) j0 rest2 else j0
    with hchosen
  have hchosen_mem : chosen ∈ best.2 := by
    rw [hchosen, hbest2]
    split
    · exact pyMax_mem _ j0 rest2
    · exact List.mem_cons_self j0 rest2
  have hchosen_pool : chosen ∈ consensus_pool cands :=
    hinv.2 chosen hchosen_mem
  have hgroupseq' : buildGroups cands (i0 :: rest0) = g :: gs := by
    rw [← hpooleq]; exact hgroupseq
  have hbfv : best_by_frequency cands scores (i0 :: rest0)
      = (chosen : Int) := by
    simp only [best_by_frequency, hgroupseq']
    simp only [← hbest, hbest2]
    by_cases hsc : scores ≠ []
    · rw [if_pos hsc, hchosen, if_pos hsc]
    · rw [if_neg hsc, hchosen, if_neg hsc]
  have hbidx : consensus_best_idx cands scores = (chosen : Int) := by
    unfold consensus_best_idx
    rw [hpooleq, hbfv]
  have hnotneg : ((chosen : Nat) : Int) ≠ -1 := by omega
  have hfinal : consensus_choose cands scores = cands.getD chosen "" := by
    unfold consensus_choose
    rw [hbidx, if_neg hnotneg]
    simp
  rw [hfinal]
  have := hpool_good chosen hchosen_pool
  simp only [is_non_empty, Bool.and_eq_true, decide_eq_true_eq] at this
  exact this.2

/-- Witness for C2 at a concrete input: one real candidate plus the fallback
sentinel; the chosen answer is not the fallback. -/
theorem C2_consensus_never_falls_back_witness :
    (∃ c ∈ ["Berlin", "I cannot answer from the given context."],
      is_non_empty c = true) ∧
    norm_ans (consensus_choose
      ["Berlin", "I cannot answer from the given context."] []) ≠ fallbackKey :=
  ⟨by decide,
    C2_consensus_never_falls_back
      ["Berlin", "I cannot answer from the given context."] [] (by decide)⟩

/-- C3: the worked scenario of the voting algorithm — candidates
`["Paris", "paris", fallback]` with confidences `[0.4, 0.9, 0.5]`: the pool
is `[0, 1]`, the winning group is the "paris" group, and the final answer is
the candidate at index 1, `"paris"`. -/
theorem C3_vote_scenario :
    consensus_pool ["Paris", "paris", "I cannot answer from the given context."]
      = [0, 1] ∧
    consensus_best_idx
      ["Paris", "paris", "I cannot answer from the given context."]
      [mkRat 2 5, mkRat 9 10, mkRat 1 2] = 1 ∧
    consensus_choose
      ["Paris", "paris", "I cannot answer from the given context."]
      [mkRat 2 5, mkRat 9 10, mkRat 1 2] = "paris" := by
  refine ⟨by decide, by decide, by decide⟩

/-! ## Claim C4: confidence vectors and the scoring entry loop
(`AnswerGenerator.score_candidate_answers`, `src/llm_pipeline.py` 117-215,
and `ContextReranker.score`, `src/llm_pipeline.py` 324-385).  `json.loads`
can return ANY JSON value, and the `for entry in parsed` loops at lines 206
and 376 are not guarded by a `try`: a truthy non-iterable parse result
raises an uncaught `TypeError`, so the payload model must keep that case. -/

/-- One element of a parsed JSON array.  The source runs
`int(entry.get("index"))` and `float(entry.get("confidence", 0))` inside
`try ... except: continue`; the dynamic conversions are modelled by their
results: `indexVal` is the converted index (`none` when `entry` is not a
dict, the field is missing, or the conversion raises) and `confVal` the
converted confidence (`none` when the conversion raises; a missing field
defaults to `0` before conversion, hence `some 0`). -/
structure ScoreEntry where
  indexVal : Option Int
  confVal : Option ℚ
deriving DecidableEq

/-- The JSON value produced by a successful `json.loads`, classified by how
the unguarded `for entry in parsed` loop treats it:
* `jarray`: a JSON array, iterated normally (a non-dict element makes
  `entry.get` raise `AttributeError`, caught by the inner
  `except: continue` — a `⟨none, _⟩` entry);
* `truthyScalar`: a truthy non-iterable value — a non-zero number or
  `true`, e.g. response text `"5"` or `"true"` — on which
  `for entry in parsed` raises an uncaught `TypeError`;
* `truthyIterable`: a truthy iterable non-array — a non-empty string or
  object — whose iteration yields strings, every one skipped by the inner
  `except`, leaving the scores untouched;
* `falsy`: any falsy value — `null`, `0`, `0.0`, `false`, `""`, `{}` —
  screened out by a truthiness check before iteration. -/
inductive JPayload where
  | jarray (entries : List ScoreEntry)
  | truthyScalar
  | truthyIterable
  | falsy

/-- Python truthiness of the parsed value (`if not parsed`); an empty
array is falsy. -/
def JPayload.truthy : JPayload → Bool
  | .jarray entries => decide (entries ≠ [])
  | .truthyScalar => true
  | .truthyIterable => true
  | .falsy => false

/-- The entry loop body (`src/llm_pipeline.py` 206-213, identical at
376-383): on any conversion failure `except: continue` keeps `scores`
unchanged; otherwise `scores[idx] = max(0.0, min(1.0, conf))` guarded by
`0 <= idx < n`. -/
def applyEntry (n : Nat) (scores : List ℚ) (e : ScoreEntry) : List ℚ :=
  match e.indexVal, e.confVal with
  | some idx, some conf =>
    if 0 ≤ idx ∧ idx < (n : Int) then
      scores.set idx.toNat (max 0 (min 1 conf))
    else scores
  | _, _ => scores

/-- `AnswerGenerator.score_candidate_answers` (`src/llm_pipeline.py`
117-215) after the chat call:
```
if not answers: return []
scores = [0.0] * len(answers)
parsed = ... json.loads / bracket-slice recovery ...   # None on failure
if not parsed: return scores
for entry in parsed: ...        # raises TypeError on a non-iterable parse
return scores
```
`parsed` is the parse outcome (`none` models failure of both the full-text
parse and the recovered bracket slice).  The question, contexts and raw
response shape only the prompt and the parse, never this computation.  The
`.falsy` arm of the inner match is unreachable: a falsy payload was already
returned by the truthiness check. -/
def score_candidate_answers (answers : List String)
    (parsed : Option JPayload) : Except String (List ℚ) :=
  if answers = [] then .ok []
  else
    let scores := List.replicate answers.length 0
    match parsed with
    | none => .ok scores
    | some p =>
      if p.truthy = false then .ok scores
      else
        match p with
        | .jarray entries =>
          .ok (entries.foldl (applyEntry answers.length) scores)
        | .truthyScalar => .error "TypeError: not iterable"
        | .truthyIterable => .ok scores
        | .falsy => .ok scores

/-- `ContextReranker.score` (`src/llm_pipeline.py` 324-385) after the chat
call: `if not contexts: return []`, then
`parsed = self._extract_json_block(content) or []` — which keeps any
TRUTHY parse result, including a non-iterable scalar — and then the same
entry loop with no further truthiness check before `for entry in parsed`.
The `.falsy` arm is unreachable: `or []` replaced every falsy value. -/
def reranker_score (contexts : List String)
    (parsed : Option JPayload) : Except String (List ℚ) :=
  if contexts = [] then .ok []
  else
    let p := match parsed with
      | none => JPayload.jarray []
      | some q => if q.truthy then q else JPayload.jarray []
    let scores := List.replicate contexts.length 0
    match p with
    | .jarray entries =>
      .ok (entries.foldl (applyEntry contexts.length) scores)
    | .truthyScalar => .error "TypeError: not iterable"
    | .truthyIterable => .ok scores
    | .falsy => .ok scores

theorem applyEntry_length (n : Nat) (scores : List ℚ) (e : ScoreEntry) :
    (applyEntry n scores e).length = scores.length := by
  unfold applyEntry
  match e.indexVal, e.confVal with
  | some idx, some conf =>
    simp only
    split
    · exact List.length_set scores _ _
    · rfl
  | some _, none => rfl
  | none, _ => rfl

theorem applyEntry_bounds (n : Nat) (scores : List ℚ) (e : ScoreEntry)
    (h : ∀ x ∈ scores, 0 ≤ x ∧ x ≤ 1) :
    ∀ x ∈ applyEntry n scores e, 0 ≤ x ∧ x ≤ 1 := by
  intro x hx
  unfold applyEntry at hx
  match he : e.indexVal, hc : e.confVal with
  | some idx, some conf =>
    rw [he, hc] at hx
    simp only at hx
    by_cases hr : 0 ≤ idx ∧ idx < (n : Int)
    · rw [if_pos hr] at hx
      rcases List.mem_or_eq_of_mem_set hx with hx' | hx'
      · exact h x hx'
      · subst hx'
        refine ⟨le_max_left 0 _, max_le (by norm_num) (min_le_left 1 conf)⟩
    · rw [if_neg hr] at hx
      exact h x hx
  | some _, none => rw [he, hc] at hx; exact h x hx
  | none, _ => rw [he] at hx; exact h x hx

theorem foldl_applyEntry_length (n : Nat) (entries : List ScoreEntry) :
    ∀ scores : List ℚ,
    (entries.foldl (applyEntry n) scores).length = scores.length := by
  induction entries with
  | nil => intro scores; rfl
  | cons e es ih =>
    intro scores
    rw [List.foldl_cons, ih (applyEntry n scores e), applyEntry_length]

theorem foldl_applyEntry_bounds (n : Nat) (entries : List ScoreEntry) :
    ∀ scores : List ℚ, (∀ x ∈ scores, 0 ≤ x ∧ x ≤ 1) →
    ∀ x ∈ entries.foldl (applyEntry n) scores, 0 ≤ x ∧ x ≤ 1 := by
  induction entries with
  | nil => intro scores h; simpa using h
  | cons e es ih =>
    intro scores h
    rw [List.foldl_cons]
    exact ih (applyEntry n scores e) (applyEntry_bounds n scores e h)

theorem replicate_zero_bounds (n : Nat) :
    ∀ x ∈ List.replicate n (0 : ℚ), 0 ≤ x ∧ x ≤ 1 := by
  intro x hx
  rw [List.eq_of_mem_replicate hx]
  norm_num

/-- The entry loop starting from the all-zero vector keeps length and
bounds (with `entries = []` this also covers the untouched vector). -/
theorem entryLoop_length_bounds (n : Nat) (entries : List ScoreEntry) :
    (entries.foldl (applyEntry n) (List.replicate n 0)).length = n ∧
    ∀ x ∈ entries.foldl (applyEntry n) (List.replicate n 0), 0 ≤ x ∧ x ≤ 1 :=
  ⟨by rw [foldl_applyEntry_length, List.length_replicate],
    foldl_applyEntry_bounds n entries _ (replicate_zero_bounds n)⟩

/-- C4 counterexample: a scoring response whose text parses as the truthy
JSON scalar `5` (or `true`) passes the `if not parsed` screen, and the
unguarded `for entry in parsed` raises an uncaught `TypeError` in BOTH
scoring operations: no vector is returned at all, refuting "without raising
on malformed response content". -/
theorem C4_counterexample :
    score_candidate_answers ["a"] (some JPayload.truthyScalar)
      = .error "TypeError: not iterable" ∧
    reranker_score ["c"] (some JPayload.truthyScalar)
      = .error "TypeError: not iterable" :=
  ⟨rfl, rfl⟩

/-- Every non-raising outcome of either scoring operation is the entry
loop run from the all-zero vector (with the empty entry list standing for
the skipped / screened-out payloads), and the only raising outcome is a
truthy non-iterable payload with a non-empty input list. -/
theorem score_candidate_answers_cases (ans : List String)
    (pp : Option JPayload) :
    (ans ≠ [] ∧ pp = some JPayload.truthyScalar ∧
      score_candidate_answers ans pp = .error "TypeError: not iterable") ∨
    ((ans = [] ∨ pp ≠ some JPayload.truthyScalar) ∧
      ∃ entries : List ScoreEntry, score_candidate_answers ans pp
        = .ok (entries.foldl (applyEntry ans.length)
            (List.replicate ans.length 0))) := by
  by_cases ha : ans = []
  · subst ha
    exact Or.inr ⟨Or.inl rfl, [], rfl⟩
  · cases pp with
    | none =>
      refine Or.inr ⟨Or.inr (by simp), [], ?_⟩
      simp [score_candidate_answers, ha]
    | some p =>
      cases p with
      | jarray entries =>
        refine Or.inr ⟨Or.inr (by simp), entries, ?_⟩
        by_cases he : entries = []
        · subst he
          simp [score_candidate_answers, ha, JPayload.truthy]
        · simp [score_candidate_answers, ha, JPayload.truthy, he]
      | truthyScalar =>
        refine Or.inl ⟨ha, rfl, ?_⟩
        simp [score_candidate_answers, ha, JPayload.truthy]
      | truthyIterable =>
        refine Or.inr ⟨Or.inr (by simp), [], ?_⟩
        simp [score_candidate_answers, ha, JPayload.truthy]
      | falsy =>
        refine Or.inr ⟨Or.inr (by simp), [], ?_⟩
        simp [score_candidate_answers, ha, JPayload.truthy]

/-- The same case analysis for `ContextReranker.score`: `or []` replaces
falsy parses with the empty array but keeps a truthy scalar, which then
raises in the loop. -/
theorem reranker_score_cases (cxs : List String) (pp : Option JPayload) :
    (cxs ≠ [] ∧ pp = some JPayload.truthyScalar ∧
      reranker_score cxs pp = .error "TypeError: not iterable") ∨
    ((cxs = [] ∨ pp ≠ some JPayload.truthyScalar) ∧
      ∃ entries : List ScoreEntry, reranker_score cxs pp
        = .ok (entries.foldl (applyEntry cxs.length)
            (List.replicate cxs.length 0))) := by
  by_cases hc : cxs = []
  · subst hc
    exact Or.inr ⟨Or.inl rfl, [], rfl⟩
  · cases pp with
    | none =>
      refine Or.inr ⟨Or.inr (by simp), [], ?_⟩
      simp [reranker_score, hc]
    | some p =>
      cases p with
      | jarray entries =>
        refine Or.inr ⟨Or.inr (by simp), entries, ?_⟩
        by_cases he : entries = []
        · subst he
          simp [reranker_score, hc, JPayload.truthy]
        · simp [reranker_score, hc, JPayload.truthy, he]
      | truthyScalar =>
        refine Or.inl ⟨hc, rfl, ?_⟩
        simp [reranker_score, hc, JPayload.truthy]
      | truthyIterable =>
        refine Or.inr ⟨Or.inr (by simp), [], ?_⟩
        simp [reranker_score, hc, JPayload.truthy]
      | falsy =>
        refine Or.inr ⟨Or.inr (by simp), [], ?_⟩
        simp [reranker_score, hc, JPayload.truthy]

/-- C4 amended: whenever the parsed payload is iterable (or absent, or
screened out as falsy), both scoring operations return a vector exactly as
long as the input list with every entry in `[0, 1]` — defaults stay at
`0.0`, parsed values are clamped; but a response parsing to a truthy
non-iterable JSON scalar (text such as `"5"` or `"true"`) makes the
unguarded `for entry in parsed` raise, and that is the only raising case
once the input list is non-empty. -/
theorem C4_confidence_bounds_or_typeerror (answers contexts : List String)
    (parsed parsed2 : Option JPayload) :
    ((∃ e, score_candidate_answers answers parsed = .error e) ↔
      answers ≠ [] ∧ parsed = some JPayload.truthyScalar) ∧
    (∀ v, score_candidate_answers answers parsed = .ok v →
      v.length = answers.length ∧ ∀ x ∈ v, 0 ≤ x ∧ x ≤ 1) ∧
    ((∃ e, reranker_score contexts parsed2 = .error e) ↔
      contexts ≠ [] ∧ parsed2 = some JPayload.truthyScalar) ∧
    (∀ v, reranker_score contexts parsed2 = .ok v →
      v.length = contexts.length ∧ ∀ x ∈ v, 0 ≤ x ∧ x ≤ 1) := by
  refine ⟨?_, ?_, ?_, ?_⟩
  · constructor
    · rintro ⟨e, he⟩
      rcases score_candidate_answers_cases answers parsed with
        ⟨ha, hp, _⟩ | ⟨_, _, hok⟩
      · exact ⟨ha, hp⟩
      · rw [hok] at he
        exact Except.noConfusion he
    · rintro ⟨ha, hp⟩
      rcases score_candidate_answers_cases answers parsed with
        ⟨_, _, herr⟩ | ⟨hside, _, _⟩
      · exact ⟨_, herr⟩
      · rcases hside with h' | h'
        · exact absurd h' ha
        · exact absurd hp h'
  · intro v hv
    rcases score_candidate_answers_cases answers parsed with
      ⟨_, _, herr⟩ | ⟨_, entries, hok⟩
    · rw [herr] at hv
      exact Except.noConfusion hv
    · rw [hok] at hv
      injection hv with hv'
      subst hv'
      exact entryLoop_length_bounds answers.length entries
  · constructor
    · rintro ⟨e, he⟩
      rcases reranker_score_cases contexts parsed2 with
        ⟨hc, hp, _⟩ | ⟨_, _, hok⟩
      · exact ⟨hc, hp⟩
      · rw [hok] at he
        exact Except.noConfusion he
    · rintro ⟨hc, hp⟩
      rcases reranker_score_cases contexts parsed2 with
        ⟨_, _, herr⟩ | ⟨hside, _, _⟩
      · exact ⟨_, herr⟩
      · rcases hside with h' | h'
        · exact absurd h' hc
        · exact absurd hp h'
  · intro v hv
    rcases reranker_score_cases contexts parsed2 with
      ⟨_, _, herr⟩ | ⟨_, entries, hok⟩
    · rw [herr] at hv
      exact Except.noConfusion hv
    · rw [hok] at hv
      injection hv with hv'
      subst hv'
      exact entryLoop_length_bounds contexts.length entries

/-- A concrete parsed array payload: a clamped out-of-range confidence
(`1.5`), an out-of-range index, and a skipped non-dict entry. -/
def c4payload : JPayload :=
  JPayload.jarray [⟨some 0, some (mkRat 3 2)⟩, ⟨some 5, some 1⟩, ⟨none, some 1⟩]

/-- Witness for C4 amended at concrete inputs: the array payload on the
scorer side (its vector computed, `1.5` clamped to `1`) and the raising
scalar payload on the reranker side. -/
theorem C4_confidence_bounds_or_typeerror_witness :
    score_candidate_answers ["a", "b"] (some c4payload) = .ok [1, 0] ∧
    (((∃ e, score_candidate_answers ["a", "b"] (some c4payload) = .error e) ↔
        ["a", "b"] ≠ [] ∧ some c4payload = some JPayload.truthyScalar) ∧
      (∀ v, score_candidate_answers ["a", "b"] (some c4payload) = .ok v →
        v.length = (["a", "b"] : List String).length ∧
          ∀ x ∈ v, 0 ≤ x ∧ x ≤ 1) ∧
      ((∃ e, reranker_score ["c"] (some JPayload.truthyScalar) = .error e) ↔
        ["c"] ≠ [] ∧
          (some JPayload.truthyScalar : Option JPayload)
            = some JPayload.truthyScalar) ∧
      (∀ v, reranker_score ["c"] (some JPayload.truthyScalar) = .ok v →
        v.length = (["c"] : List String).length ∧
          ∀ x ∈ v, 0 ≤ x ∧ x ≤ 1)) :=
  ⟨rfl,
    C4_confidence_bounds_or_typeerror ["a", "b"] ["c"]
      (some c4payload) (some JPayload.truthyScalar)⟩

/-! ## Claim C5: per-trajectory failure handling in the orchestrator
(`MultiTrajectoryBM25Retriever.multi_trajectory_retrieve`,
`src/multi_BM25_retrieval.py` 75-89). -/

/-- One trajectory's output entry `{"queries": ..., "docs": ...}`
(`src/multi_BM25_retrieval.py` 87). -/
structure TrajOut (α : Type) where
  queries : List String
  docs : List α
deriving DecidableEq

/-- The join loop (`src/multi_BM25_retrieval.py` 85-87): `fut.result()` is
called on each submitted future in submission order; the first failed
future re-raises its exception, which propagates out of
`multi_trajectory_retrieve` (the `with` block only waits for remaining
workers, whose results are then discarded).  `work` stands for
`self._retrieve_for_queries(qlist, top_k_per_query)`; tasks share no
mutable state, so the fork/join has sequential value semantics. -/
def joinFutures {α : Type} (work : List String → Except String (List α)) :
    List (String × List String) → Except String (List (String × TrajOut α))
  | [] => .ok []
  | (name, qlist) :: rest =>
    match work qlist with
    | .error e => .error e
    | .ok docs =>
      match joinFutures work rest with
      | .error e => .error e
      | .ok tail => .ok ((name, ⟨qlist, docs⟩) :: tail)

/-- `multi_trajectory_retrieve`'s dispatch and join
(`src/multi_BM25_retrieval.py` 75-89): only trajectories with a truthy
(non-empty) query list are submitted (`if qlist` in the comprehension at
line 82), then the join loop runs.  The four query sets themselves
(lines 62-73) come from the external rewriter, so `trajectories` is an
input. -/
def multi_trajectory_retrieve {α : Type}
    (work : List String → Except String (List α))
    (trajectories : List (String × List String)) :
    Except String (List (String × TrajOut α)) :=
  joinFutures work (trajectories.filter (fun p => p.2 ≠ []))

/-- `Except.isOk` as a plain definition. -/
def exceptIsOk {ε α : Type} : Except ε α → Bool
  | .ok _ => true
  | .error _ => false

/-- A worker stub for the counterexample: the query list `["ok"]` retrieves
one document, the query list `["bad"]` fails. -/
def workStub : List String → Except String (List Nat) :=
  fun qlist => if qlist = ["bad"] then .error "boom" else .ok [7]

/-- Two trajectories, one of which will fail. -/
def trajStub : List (String × List String) :=
  [("original", ["ok"]), ("rewrite", ["bad"])]

/-- C5 counterexample: with one sibling succeeding and one failing, the
orchestrator does not record the failed trajectory as absent and carry on —
it propagates the failure and produces no result map at all, even though
not every trajectory failed (and no `NoTrajectoriesSucceeded` error exists
anywhere in the code). -/
theorem C5_counterexample :
    workStub ["ok"] = .ok [7] ∧
    multi_trajectory_retrieve workStub trajStub = .error "boom" :=
  ⟨rfl, rfl⟩

theorem joinFutures_ok_iff {α : Type}
    (work : List String → Except String (List α)) :
    ∀ l : List (String × List String),
    exceptIsOk (joinFutures work l) = true ↔
      ∀ p ∈ l, exceptIsOk (work p.2) = true := by
  intro l
  induction l with
  | nil => simp [joinFutures, exceptIsOk]
  | cons q rest ih =>
    obtain ⟨name, qlist⟩ := q
    simp only [joinFutures]
    constructor
    · intro h
      match hw : work qlist with
      | .error e => rw [hw] at h; exact absurd h (by simp [exceptIsOk])
      | .ok docs =>
        rw [hw] at h
        match hj : joinFutures work rest with
        | .error e => rw [hj] at h; exact absurd h (by simp [exceptIsOk])
        | .ok tail =>
          rw [hj] at h
          intro p hp
          rcases List.mem_cons.mp hp with rfl | hp'
          · simp [hw, exceptIsOk]
          · exact (ih.mp (by rw [hj]; rfl)) p hp'
    · intro h
      have hhead := h (name, qlist) (List.mem_cons_self _ _)
      match hw : work qlist with
      | .error e => rw [hw] at hhead; exact absurd hhead (by simp [exceptIsOk])
      | .ok docs =>
        have htail := ih.mpr fun p hp => h p (List.mem_cons_of_mem _ hp)
        match hj : joinFutures work rest with
        | .error e => rw [hj] at htail; exact absurd htail (by simp [exceptIsOk])
        | .ok tail => simp [exceptIsOk]

theorem joinFutures_names {α : Type}
    (work : List String → Except String (List α)) :
    ∀ (l : List (String × List String)) (m : List (String × TrajOut α)),
    joinFutures work l = .ok m → m.map Prod.fst = l.map Prod.fst := by
  intro l
  induction l with
  | nil =>
    intro m h
    simp only [joinFutures] at h
    cases h
    rfl
  | cons q rest ih =>
    intro m h
    obtain ⟨name, qlist⟩ := q
    simp only [joinFutures] at h
    match hw : work qlist with
    | .error e => rw [hw] at h; cases h
    | .ok docs =>
      rw [hw] at h
      match hj : joinFutures work rest with
      | .error e => rw [hj] at h; cases h
      | .ok tail =>
        rw [hj] at h
        cases h
        simp only [List.map_cons]
        rw [ih tail hj]

/-- C5 amended: a single dispatched trajectory's failure propagates and
aborts the whole retrieval — the orchestrator returns a result map exactly
when every trajectory with a non-empty query list succeeds, and that map
then lists every such trajectory in order; failed trajectories are never
recorded as merely absent, and no `NoTrajectoriesSucceeded` error exists. -/
theorem C5_failure_propagates {α : Type}
    (work : List String → Except String (List α))
    (trajectories : List (String × List String)) :
    (exceptIsOk (multi_trajectory_retrieve work trajectories) = true ↔
      ∀ p ∈ trajectories, p.2 ≠ [] → exceptIsOk (work p.2) = true) ∧
    (∀ m, multi_trajectory_retrieve work trajectories = .ok m →
      m.map Prod.fst
        = (trajectories.filter (fun p => p.2 ≠ [])).map Prod.fst) := by
  constructor
  · rw [multi_trajectory_retrieve, joinFutures_ok_iff]
    constructor
    · intro h p hp hne
      exact h p (List.mem_filter.mpr ⟨hp, by simpa using hne⟩)
    · intro h p hp
      have := List.mem_filter.mp hp
      exact h p this.1 (by simpa using this.2)
  · intro m h
    exact joinFutures_names work _ m h

/-- Witness for C5 amended, instantiated at the concrete stub (and, through
the `iff`, usable in both directions). -/
theorem C5_failure_propagates_witness :
    (exceptIsOk (multi_trajectory_retrieve workStub trajStub) = true ↔
      ∀ p ∈ trajStub, p.2 ≠ [] → exceptIsOk (workStub p.2) = true) ∧
    (∀ m, multi_trajectory_retrieve workStub trajStub = .ok m →
      m.map Prod.fst = (trajStub.filter (fun p => p.2 ≠ [])).map Prod.fst) :=
  C5_failure_propagates workStub trajStub

/-! ## Claims C9 and C10: the dev-run loop (`run_full_dev`,
`src/predict_full.py` 39-153). -/

/-- One loaded dev example, reduced to what the loop control reads:
`sample.get("_id")` and `sample.get("id")` (`none` models a missing key).
The rest of the sample is consumed only through the `pipeline` oracle. -/
structure DevSample where
  question : String
  idUnd : Option String
  idPlain : Option String

/-- Python `a or b` on two `dict.get` results: `a` unless it is falsy
(`None` or `""`). -/
def pyOrStr (a b : Option String) : Option String :=
  match a with
  | none => b
  | some v => if v = "" then b else some v

/-- Python truthiness of `example_id` (`if not example_id: continue`,
`src/predict_full.py` 47). -/
def truthyStr : Option String → Bool
  | none => false
  | some v => decide (v ≠ "")

/-- `predictions[example_id] = final_answer` on CPython's insertion-ordered
dict: overwrite in place, or append a new key. -/
def dictSet : List (String × String) → String → String → List (String × String)
  | [], k, v => [(k, v)]
  | (k', v') :: rest, k, v =>
    if k' = k then (k', v) :: rest else (k', v') :: dictSet rest k v

/-- The example loop of `run_full_dev` (`src/predict_full.py` 42-147):
```
for idx, sample in enumerate(data):
    if idx >= 10: break
    question = sample.get("question", "")
    example_id = sample.get("_id") or sample.get("id")
    if not example_id: continue
    ...retrieval / rerank / generation / consensus...
    predictions[example_id] = final_answer
```
The loop body between the id check and the dict write touches only external
collaborators plus the pure consensus logic embedded above; it is abstracted
as the `pipeline` oracle mapping the sample to its final answer. -/
def run_full_dev_loop (pipeline : DevSample → String) :
    List DevSample → Nat → List (String × String) → List (String × String)
  | [], _, preds => preds
  | s :: rest, idx, preds =>
    if 10 ≤ idx then preds
    else
      match pyOrStr s.idUnd s.idPlain with
      | none => run_full_dev_loop pipeline rest (idx + 1) preds
      | some eid =>
        if eid = "" then run_full_dev_loop pipeline rest (idx + 1) preds
        else
          run_full_dev_loop pipeline rest (idx + 1)
            (dictSet preds eid (pipeline s))

/-- `run_full_dev`'s predictions mapping (`src/predict_full.py` 39-147). -/
def run_full_dev (pipeline : DevSample → String) (data : List DevSample) :
    List (String × String) :=
  run_full_dev_loop pipeline data 0 []

/-- C9 counterexample: a two-example dev set whose first example has no id.
The run's output mapping holds a single entry — the id-less question is
omitted entirely, not recorded as an empty-string prediction. -/
theorem C9_counterexample :
    run_full_dev (fun s => String.append "ans:" s.question)
        [⟨"q0", none, none⟩, ⟨"q1", some "ex1", none⟩]
      = [("ex1", "ans:q1")] ∧
    (run_full_dev (fun s => String.append "ans:" s.question)
        [⟨"q0", none, none⟩, ⟨"q1", some "ex1", none⟩]).length = 1 :=
  ⟨rfl, rfl⟩

/-- C9 amended: a question whose example id is missing or empty is skipped —
no entry is added to the output mapping for it — and processing continues
with the next question (the position counter still advances). -/
theorem C9_missing_id_skips (pipeline : DevSample → String) (s : DevSample)
    (rest : List DevSample) (idx : Nat) (preds : List (String × String))
    (hid : truthyStr (pyOrStr s.idUnd s.idPlain) = false) (hidx : idx < 10) :
    run_full_dev_loop pipeline (s :: rest) idx preds
      = run_full_dev_loop pipeline rest (idx + 1) preds := by
  have h10 : ¬ 10 ≤ idx := by omega
  simp only [run_full_dev_loop, if_neg h10]
  cases hoe : pyOrStr s.idUnd s.idPlain with
  | none => rfl
  | some eid =>
    rw [hoe] at hid
    simp only [truthyStr, decide_eq_false_iff_not, not_not] at hid
    simp [hid]

/-- Witness for C9 amended at a concrete sample without id. -/
theorem C9_missing_id_skips_witness :
    truthyStr (pyOrStr (DevSample.mk "q0" none none).idUnd
        (DevSample.mk "q0" none none).idPlain) = false ∧
    (0 : Nat) < 10 ∧
    run_full_dev_loop (fun _ => "x") [⟨"q0", none, none⟩] 0 []
      = run_full_dev_loop (fun _ => "x") [] 1 [] :=
  ⟨by decide, by decide,
    C9_missing_id_skips (fun _ => "x") ⟨"q0", none, none⟩ [] 0 []
      (by decide) (by decide)⟩

theorem run_full_dev_loop_take (pipeline : DevSample → String) :
    ∀ (data : List DevSample) (idx : Nat) (preds : List (String × String)),
    run_full_dev_loop pipeline data idx preds
      = run_full_dev_loop pipeline (data.take (10 - idx)) idx preds := by
  intro data
  induction data with
  | nil => intro idx preds; rw [List.take_nil]
  | cons s rest ih =>
    intro idx preds
    by_cases h : 10 ≤ idx
    · have hz : 10 - idx = 0 := by omega
      rw [hz, List.take_zero]
      simp only [run_full_dev_loop, if_pos h]
    · have hsucc : 10 - idx = (10 - (idx + 1)) + 1 := by omega
      rw [hsucc, List.take_succ_cons]
      simp only [run_full_dev_loop, if_neg h]
      cases hoe : pyOrStr s.idUnd s.idPlain with
      | none => exact ih (idx + 1) preds
      | some eid =>
        by_cases he : eid = ""
        · simp only [if_pos he]
          exact ih (idx + 1) preds
        · simp only [if_neg he]
          exact ih (idx + 1) (dictSet preds eid (pipeline s))

/-- C10: the full-dev run reads only the first ten examples — every example
at position 10 or later contributes nothing to the output mapping,
whatever the dataset's size. -/
theorem C10_only_first_ten (pipeline : DevSample → String)
    (data : List DevSample) :
    run_full_dev pipeline data = run_full_dev pipeline (data.take 10) := by
  unfold run_full_dev
  rw [run_full_dev_loop_take pipeline data 0 [],
    run_full_dev_loop_take pipeline (data.take 10) 0 []]

/-! ## Claim C1: per-trajectory merge of query-variant retrievals
(`MultiTrajectoryBM25Retriever._retrieve_for_queries`,
`src/multi_BM25_retrieval.py` 25-45, over `BM25Retriever.retrieve`,
`src/BM25S_retrieval.py` 27-52). -/

/-- The metadata record stored per chunk (`src/data_utils.py` 58-66 /
`src/chunker.py` 158-166): the underlying page's document id lives here,
under the `"doc_id"` key of the `meta` dict. -/
structure MetaRec where
  chunk_id : Option String
  doc_id : Option String
  title : Option String
  url : Option String
deriving DecidableEq

/-- A Python value occurring in a retrieval record. -/
inductive PyVal where
  | num (q : ℚ)
  | str (s : String)
  | metaV (m : MetaRec)
deriving DecidableEq

/-- A retrieval record: a Python dict in insertion order. -/
abbrev PyDict := List (String × PyVal)

/-- `r[key]` as a total lookup; `none` is the `KeyError` case. -/
def dictGet (d : PyDict) (k : String) : Option PyVal :=
  (d.find? (fun p => decide (p.1 = k))).map Prod.snd

/-- The loaded pickle store (`BM25Retriever.__init__`,
`src/BM25S_retrieval.py` 16-25): parallel `texts` and `meta` lists. -/
structure BM25Store where
  texts : List String
  meta : List MetaRec

/-- `BM25Retriever.retrieve` (`src/BM25S_retrieval.py` 27-52).  The backing
engine `self.retriever.retrieve` (external bm25s) yields index/score pairs;
each result record is built with exactly the keys `"score"`, `"text"` and
`"meta"` (lines 43-49) — there is no top-level `"doc_id"` key.  An
out-of-range store index would raise in Python; `getD` keeps the model
total and every theorem instantiates the engine with in-range indices. -/
def bm25_retrieve (store : BM25Store)
    (engine : String → Nat → List (Nat × ℚ)) (query : String) (top_k : Nat) :
    List PyDict × List ℚ :=
  let pairs := engine query top_k
  (pairs.map (fun p =>
      [("score", PyVal.num p.2),
       ("text", PyVal.str (store.texts.getD p.1 "")),
       ("meta", PyVal.metaV (store.meta.getD p.1 ⟨none, none, none, none⟩))]),
   pairs.map Prod.snd)

/-- Lookup in the `doc_best` dict, keyed by the `"doc_id"` value. -/
def assocFind (m : List (PyVal × PyDict)) (k : PyVal) : Option PyDict :=
  (m.find? (fun p => decide (p.1 = k))).map Prod.snd

/-- `doc_best[doc_id] = r` on the insertion-ordered dict. -/
def assocSet : List (PyVal × PyDict) → PyVal → PyDict → List (PyVal × PyDict)
  | [], k, v => [(k, v)]
  | (k', v') :: rest, k, v =>
    if k' = k then (k', v) :: rest else (k', v') :: assocSet rest k v

/-- The inner merge loop of `_retrieve_for_queries`
(`src/multi_BM25_retrieval.py` 39-43):
```
for r in results:
    doc_id = r["doc_id"]
    score = r["score"]
    if doc_id not in doc_best or score > doc_best[doc_id]["score"]:
        doc_best[doc_id] = r
```
A missing key raises `KeyError`; Python's dynamic `>` on the float scores
the retriever produces is modelled as numeric-only comparison. -/
def mergeResults : List PyDict → List (PyVal × PyDict) →
    Except String (List (PyVal × PyDict))
  | [], docBest => .ok docBest
  | r :: rs, docBest =>
    match dictGet r "doc_id" with
    | none => .error "KeyError: doc_id"
    | some docId =>
      match dictGet r "score" with
      | none => .error "KeyError: score"
      | some score =>
        match assocFind docBest docId with
        | none => mergeResults rs (assocSet docBest docId r)
        | some prev =>
          match score, dictGet prev "score" with
          | .num s, some (.num ps) =>
            if ps < s then mergeResults rs (assocSet docBest docId r)
            else mergeResults rs docBest
          | _, _ => .error "TypeError: unorderable score"

/-- The sort key `d["score"]` of `sorted(doc_best.values(), ...)`
(`src/multi_BM25_retrieval.py` 45). -/
def sortKeyOf (d : PyDict) : Except String ℚ :=
  match dictGet d "score" with
  | some (.num q) => .ok q
  | some _ => .error "TypeError: unorderable score"
  | none => .error "KeyError: score"

/-- Decorate each surviving record with its sort key (Python `sorted`
evaluates `key` on every element first). -/
def decorateKeys : List PyDict → Except String (List (ℚ × PyDict))
  | [] => .ok []
  | d :: ds =>
    match sortKeyOf d with
    | .error e => .error e
    | .ok q =>
      match decorateKeys ds with
      | .error e => .error e
      | .ok tail => .ok ((q, d) :: tail)

/-- Stable descending insert: an element is placed before the first
strictly smaller key, so equal keys keep their original relative order,
matching Python's stable `sorted(..., reverse=True)`. -/
def insertDesc (x : ℚ × PyDict) : List (ℚ × PyDict) → List (ℚ × PyDict)
  | [] => [x]
  | y :: ys => if y.1 ≤ x.1 then x :: y :: ys else y :: insertDesc x ys

/-- `sorted(values, key=lambda d: d["score"], reverse=True)`. -/
def sortedByScoreDesc (ds : List PyDict) : Except String (List PyDict) :=
  match decorateKeys ds with
  | .error e => .error e
  | .ok pairs => .ok ((pairs.foldr insertDesc []).map Prod.snd)

/-- `_retrieve_for_queries` (`src/multi_BM25_retrieval.py` 25-45): skip
queries that are empty after stripping, retrieve each remaining query,
fold the results into `doc_best`, and finally sort the surviving records
by score descending.  `bm25retrieve` is `self.bm25.retrieve(q, top_k)`'s
record list (its score list return is unused here). -/
def retrieve_for_queries (bm25retrieve : String → List PyDict) :
    List String → List (PyVal × PyDict) → Except String (List PyDict)
  | [], docBest => sortedByScoreDesc (docBest.map Prod.snd)
  | q :: qs, docBest =>
    let qS := pyStrip q
    if qS = "" then retrieve_for_queries bm25retrieve qs docBest
    else
      match mergeResults (bm25retrieve qS) docBest with
      | .error e => .error e
      | .ok docBest2 => retrieve_for_queries bm25retrieve qs docBest2

/-- A one-chunk store and a backing engine returning that chunk with
score 5, to evaluate the merge at a concrete input. -/
def bugStore : BM25Store :=
  ⟨["Machine learning is a field of study."],
   [⟨some "p0_0", some "p0", some "ML", some "https://ml"⟩]⟩

/-- `self.bm25.retrieve(q, 8)` over `bugStore`. -/
def bugRetrieve (q : String) : List PyDict :=
  (bm25_retrieve bugStore (fun _ _ => [(0, 5)]) q 8).1

/-- C1: the merge crashes instead of deduplicating.  `retrieve()` builds
records whose only keys are `"score"`, `"text"` and `"meta"` (the document
id sits inside `"meta"`), so `r["doc_id"]` at
`src/multi_BM25_retrieval.py` 40 raises `KeyError` for any non-empty
retrieval result, contradicting the function's own docstring ("merges the
results … will keep the highest score"). -/
theorem C1_merge_keyerror :
    dictGet ((bugRetrieve "what is machine learning").getD 0 []) "doc_id"
      = none ∧
    dictGet ((bugRetrieve "what is machine learning").getD 0 []) "meta"
      = some (PyVal.metaV ⟨some "p0_0", some "p0", some "ML", some "https://ml"⟩) ∧
    retrieve_for_queries bugRetrieve ["what is machine learning"] []
      = .error "KeyError: doc_id" :=
  ⟨by decide, by decide, rfl⟩

/-! ## Claim C8: locating the JSON block in a scoring response
(`ContextReranker._extract_json_block`, `src/llm_pipeline.py` 308-322; the
inline parser of `score_candidate_answers`, lines 191-204, performs the
identical `find`/`rfind` slice).  `json.loads` is external and abstracted
as `jloads` (`none` models a raised `JSONDecodeError`). -/

/-- Worker for Python `text.find(c)`. -/
def pyFindCharAux (c : Char) : Nat → List Char → Int
  | _, [] => -1
  | i, x :: xs => if x = c then (i : Int) else pyFindCharAux c (i + 1) xs

/-- Python `text.find(c)`: lowest index of `c`, or `-1`. -/
def pyFindChar (s : String) (c : Char) : Int := pyFindCharAux c 0 s.data

/-- Worker for Python `text.rfind(c)`: scan forward remembering the last
match. -/
def pyRfindCharAux (c : Char) : Nat → Int → List Char → Int
  | _, acc, [] => acc
  | i, acc, x :: xs =>
    pyRfindCharAux c (i + 1) (if x = c then (i : Int) else acc) xs

/-- Python `text.rfind(c)`: highest index of `c`, or `-1`. -/
def pyRfindChar (s : String) (c : Char) : Int := pyRfindCharAux c 0 (-1) s.data

/-- Python `s[a:b]` for `0 ≤ a ≤ b` within range (character slice). -/
def pySlice (s : String) (a b : Nat) : String :=
  String.mk ((s.data.drop a).take (b - a))

/-- `_extract_json_block` (`src/llm_pipeline.py` 308-322):
```
try: return json.loads(text)
except: pass
start = text.find("[")
end = text.rfind("]")
if start != -1 and end != -1 and end > start:
    try: return json.loads(text[start : end + 1])
    except: return None
return None
``` -/
def extract_json_block {J : Type} (jloads : String → Option J)
    (text : String) : Option J :=
  match jloads text with
  | some v => some v
  | none =>
    let start := pyFindChar text '['
    let e := pyRfindChar text ']'
    if start ≠ -1 ∧ e ≠ -1 ∧ e > start then
      jloads (pySlice text start.toNat (e.toNat + 1))
    else none

/-- Modelled from the claim's words: the FIRST `[...]` span of the text —
from the first `[` through the first `]` after it, inclusive
(helper: prefix of a character list up to and including the first `]`). -/
def upThroughClose : List Char → Option (List Char)
  | [] => none
  | c :: rest =>
    if c = ']' then some [c]
    else
      match upThroughClose rest with
      | none => none
      | some tail => some (c :: tail)

/-- Modelled from the claim's words: the first bracketed span. -/
def firstBracketSpanChars : List Char → Option (List Char)
  | [] => none
  | c :: rest =>
    if c = '[' then
      match upThroughClose rest with
      | none => none
      | some tail => some (c :: tail)
    else firstBracketSpanChars rest

/-- Modelled from the claim's words: the first `[...]` span of a response
text. -/
def firstBracketSpan (text : String) : Option String :=
  (firstBracketSpanChars text.data).map String.mk

/-- A `json.loads` stand-in agreeing with the real parser on the strings
the counterexample evaluates: `"[1]"` is valid JSON, the surrounding prose
and the wide slice `"[1] and [2]"` are not. -/
def jloadsStub : String → Option String := fun s =>
  if s = "[1]" then some "[1]" else none

/-- C8 counterexample: on a response containing two bracketed spans, the
parser does not locate and parse the first `[...]` span (`"[1]"`, which
parses fine) — it slices from the first `[` to the LAST `]`
(`"[1] and [2]"`, which is not valid JSON) and therefore returns nothing. -/
theorem C8_counterexample :
    jloadsStub "see [1] and [2] end" = none ∧
    firstBracketSpan "see [1] and [2] end" = some "[1]" ∧
    jloadsStub "[1]" = some "[1]" ∧
    pySlice "see [1] and [2] end"
        (pyFindChar "see [1] and [2] end" '[').toNat
        ((pyRfindChar "see [1] and [2] end" ']').toNat + 1) = "[1] and [2]" ∧
    extract_json_block jloadsStub "see [1] and [2] end" = none :=
  ⟨by decide, by decide, by decide, by decide, by decide⟩

/-- The least index of `c` in `l`, by structural recursion. -/
def firstIdxOf : List Char → Char → Option Nat
  | [], _ => none
  | x :: xs, c =>
    if x = c then some 0 else (firstIdxOf xs c).map (· + 1)

/-- The greatest index of `c` in `l`, by structural recursion. -/
def lastIdxOf : List Char → Char → Option Nat
  | [], _ => none
  | x :: xs, c =>
    match lastIdxOf xs c with
    | some k => some (k + 1)
    | none => if x = c then some 0 else none

/-- Modelled from the amended claim: the span from the first `[` to the
last `]`, inclusive, provided the latter lies strictly after the former. -/
def spanFirstToLast (text : String) : Option String :=
  match firstIdxOf text.data '[', lastIdxOf text.data ']' with
  | some i, some j =>
    if i < j then some (String.mk ((text.data.drop i).take (j + 1 - i)))
    else none
  | _, _ => none

theorem pyFindCharAux_eq (c : Char) :
    ∀ (l : List Char) (i : Nat),
    pyFindCharAux c i l =
      match firstIdxOf l c with
      | some k => ((i + k : Nat) : Int)
      | none => -1 := by
  intro l
  induction l with
  | nil => intro i; rfl
  | cons x xs ih =>
    intro i
    by_cases hx : x = c
    · simp [pyFindCharAux, firstIdxOf, hx]
    · simp only [pyFindCharAux, firstIdxOf, if_neg hx, ih (i + 1)]
      cases hf : firstIdxOf xs c with
      | none => rfl
      | some k =>
        simp only [Option.map_some']
        norm_cast
        omega

theorem pyRfindCharAux_eq (c : Char) :
    ∀ (l : List Char) (i : Nat) (acc : Int),
    pyRfindCharAux c i acc l =
      match lastIdxOf l c with
      | some k => ((i + k : Nat) : Int)
      | none => acc := by
  intro l
  induction l with
  | nil => intro i acc; rfl
  | cons x xs ih =>
    intro i acc
    simp only [pyRfindCharAux]
    rw [ih (i + 1)]
    simp only [lastIdxOf]
    cases hl : lastIdxOf xs c with
    | some k =>
      simp only
      norm_cast
      omega
    | none =>
      by_cases hx : x = c
      · simp [hx]
      · simp [hx]

/-- C8 amended: whenever the full response text is not valid JSON, the
parser attempts to parse exactly the slice running from the text's first
`[` to its last `]` (inclusive), and yields nothing when no such
well-ordered pair of brackets exists. -/
theorem C8_span_first_to_last {J : Type} (jloads : String → Option J)
    (text : String) (h : jloads text = none) :
    extract_json_block jloads text =
      match spanFirstToLast text with
      | some sp => jloads sp
      | none => none := by
  unfold extract_json_block spanFirstToLast
  rw [h]
  have hfind : pyFindChar text '[' =
      match firstIdxOf text.data '[' with
      | some k => ((k : Nat) : Int)
      | none => -1 := by
    unfold pyFindChar
    rw [pyFindCharAux_eq '[' text.data 0]
    cases firstIdxOf text.data '[' <;> simp
  have hrfind : pyRfindChar text ']' =
      match lastIdxOf text.data ']' with
      | some k => ((k : Nat) : Int)
      | none => -1 := by
    unfold pyRfindChar
    rw [pyRfindCharAux_eq ']' text.data 0 (-1)]
    cases lastIdxOf text.data ']' <;> simp
  simp only [hfind, hrfind]
  cases hi : firstIdxOf text.data '[' with
  | none =>
    simp only
    rw [if_neg]
    intro hcond
    exact hcond.1 rfl
  | some i =>
    cases hj : lastIdxOf text.data ']' with
    | none =>
      simp only
      rw [if_neg]
      intro hcond
      exact hcond.2.1 rfl
    | some j =>
      simp only
      by_cases hij : i < j
      · rw [if_pos ⟨by omega, by omega, by exact_mod_cast hij⟩, if_pos hij]
        have h1 : ((i : Int)).toNat = i := Int.toNat_ofNat i
        have h2 : ((j : Int)).toNat = j := Int.toNat_ofNat j
        rw [h1, h2]
        rfl
      · rw [if_neg, if_neg hij]
        intro hcond
        exact hij (by exact_mod_cast hcond.2.2)

/-- Witness for C8 amended at the concrete two-span response. -/
theorem C8_span_first_to_last_witness :
    jloadsStub "see [1] and [2] end" = none ∧
    extract_json_block jloadsStub "see [1] and [2] end" =
      match spanFirstToLast "see [1] and [2] end" with
      | some sp => jloadsStub sp
      | none => none :=
  ⟨by decide,
    C8_span_first_to_last jloadsStub "see [1] and [2] end" (by decide)⟩

end Spec2Proof
